import Mathlib

/-!
Verification of the universal_reports report-builder widget.

This file gives a shallow embedding of the two controllers of the
repository (the base `ReportBuilderWidget` in
`static/src/js/report_builder.js` and the `ReportBuilderExtended`
controller) and proves or refutes the frozen claims about them.

Modelling conventions:
* the reactive `this.state` object is an explicit record `ExtState`;
* asynchronous remote calls are parametrised by their outcome
  (an inductive describing success / server failure / rejection);
* notifications are accumulated in a list (most recent first);
* JS numbers that are used as indices are `Int` (historyIndex starts
  at `-1`), counters are `Nat`, the floating-point running average of
  execution times is `Rat`;
* `JSON.parse(JSON.stringify(x))` on the plain records involved is a
  value copy, hence the identity in the value model; a second model
  (`RefState`) with an explicit heap of array cells is used for the
  claims that are about object identity and aliasing.
-/

namespace UR

/-- Opaque report row; rows are never inspected by the widget. -/
abbrev Row := Nat

/-- An entry of `availableModels`: `{id, name, model}`. -/
structure Model where
  id : Nat
  name : String
  model : String
deriving DecidableEq, Repr

/-- A field descriptor returned by the field-list RPC: `{name, string, type}`. -/
structure AvailField where
  name : String
  string : String
  type : String
deriving DecidableEq, Repr

/-- One selected report column (`FieldSpec` of the spec). -/
structure FieldSpec where
  name : String
  label : String
  type : String
  visible : Bool
  sequence : Nat
  format_type : String
  aggregation : String
deriving DecidableEq, Repr

/-- One filter row (`FilterSpec`). -/
structure FilterSpec where
  id : Nat
  field : String
  field_type : String
  operator : String
  value : String
  active : Bool
deriving DecidableEq, Repr

/-- One sort row (`SortSpec`). -/
structure SortSpec where
  id : Nat
  field : String
  direction : String
deriving DecidableEq, Repr

/-- One grouping row (`GroupSpec`). -/
structure GroupSpec where
  id : Nat
  field : String
  show_totals : Bool
deriving DecidableEq, Repr

/-- The four mutable collections that `addToHistory` snapshots and
`restoreState` overwrites wholesale. -/
structure Snapshot where
  selectedFields : List FieldSpec
  filters : List FilterSpec
  groups : List GroupSpec
  sorts : List SortSpec
deriving DecidableEq, Repr

/-- Auxiliary data attached to a history entry by its producer. -/
inductive HistData where
  | noData : HistData
  | fieldName (name : String) : HistData
  | count (n : Nat) : HistData
  | filename (name : String) : HistData
deriving DecidableEq, Repr

/-- A history entry: action name, auxiliary data, timestamp and the
deep-copied snapshot of the four collections. -/
structure HistoryEntry where
  action : String
  data : HistData
  timestamp : Nat
  state : Snapshot
deriving DecidableEq, Repr

/-- A `{field, operator, value}` triple produced by `prepareFilters`. -/
structure PreparedFilter where
  field : String
  operator : String
  value : String
deriving DecidableEq, Repr

/-- The record that `generateCacheKey` JSON-serialises.  The source uses
`JSON.stringify` of exactly this shape; stringify is injective on it, so
the structured record is used as the map key. -/
structure CacheKey where
  model : Option String
  fields : List String
  filters : List PreparedFilter
  sorts : List SortSpec
  groups : List GroupSpec
deriving DecidableEq, Repr

/-- Execution statistics kept by the extended controller. -/
structure Stats where
  totalExecutions : Nat
  avgExecutionTime : Rat
  lastExecutionTime : Nat
deriving DecidableEq, Repr

/-- One emitted notification: severity, stickiness, message. -/
structure Notif where
  ntype : String
  sticky : Bool
  message : String
deriving DecidableEq, Repr

/-- The controller state (`this.state` of both controllers merged, the
timer-related flags that no claim mentions are omitted). -/
structure ExtState where
  selectedModel : Option Model
  availableModels : List Model
  availableFields : List AvailField
  snap : Snapshot
  reportData : Option (List Row)
  reportCount : Nat
  loading : Bool
  errors : List String
  currentStep : Nat
  previewMode : Bool
  history : List HistoryEntry
  historyIndex : Int
  cachedResults : List (CacheKey × List Row)
  lastCacheKey : Option CacheKey
  executionStats : Stats
  notifs : List Notif
deriving DecidableEq, Repr

/-- The pristine controller state produced by `setup()`. -/
def initState : ExtState :=
  { selectedModel := none
    availableModels := []
    availableFields := []
    snap := ⟨[], [], [], []⟩
    reportData := none
    reportCount := 0
    loading := false
    errors := []
    currentStep := 1
    previewMode := false
    history := []
    historyIndex := -1
    cachedResults := []
    lastCacheKey := none
    executionStats := ⟨0, 0, 0⟩
    notifs := [] }

/-- Default field used with positional `getD` lookups. -/
def dfltField : FieldSpec := ⟨"", "", "", true, 0, "text", "none"⟩

/-- Default available-field descriptor. -/
def dfltAvail : AvailField := ⟨"", "", ""⟩

-- === list helpers (JS array primitives) ===

/-- `Array.prototype[i]` as an option (JS `findIndex` result `-1` is `none`). -/
def nth {α : Type} : List α → Nat → Option α
  | [], _ => none
  | x :: _, 0 => some x
  | _ :: rest, n + 1 => nth rest n

/-- JS `findIndex`, returning `none` instead of `-1`. -/
def findIdxO {α : Type} (p : α → Bool) : List α → Option Nat
  | [] => none
  | x :: rest => if p x then some 0 else (findIdxO p rest).map (· + 1)

/-- In-place assignment `a[i] = v`. -/
def setAt {α : Type} : List α → Nat → α → List α
  | [], _, _ => []
  | _ :: rest, 0, v => v :: rest
  | x :: rest, n + 1, v => x :: setAt rest n v

/-- The sequence renumbering loop of `moveField`:
`fields.forEach((field, idx) => field.sequence = idx + 1)`, started at
offset `n`. -/
def renumberFrom : Nat → List FieldSpec → List FieldSpec
  | _, [] => []
  | n, f :: rest => { f with sequence := n + 1 } :: renumberFrom (n + 1) rest

/-- `Map.prototype.get`/`has` over the cache. -/
def cacheLookup (k : CacheKey) : List (CacheKey × List Row) → Option (List Row)
  | [] => none
  | (k', v) :: rest => if k = k' then some v else cacheLookup k rest

/-- `Map.prototype.set` over the cache. -/
def cacheSet (k : CacheKey) (v : List Row) : List (CacheKey × List Row) → List (CacheKey × List Row)
  | [] => [(k, v)]
  | (k', v') :: rest => if k = k' then (k, v) :: rest else (k', v') :: cacheSet k v rest

-- === notifications ===

/-- `this.notification.add(message, {type, sticky})`. -/
def notify (s : ExtState) (t : String) (st : Bool) (msg : String) : ExtState :=
  { s with notifs := ⟨t, st, msg⟩ :: s.notifs }

/-- `showSuccess`. -/
def showSuccess (s : ExtState) (msg : String) : ExtState := notify s "success" false msg

/-- `showWarning`. -/
def showWarning (s : ExtState) (msg : String) : ExtState := notify s "warning" false msg

/-- `showInfo`. -/
def showInfo (s : ExtState) (msg : String) : ExtState := notify s "info" false msg

/-- `showError(title, error)`: the message is the thrown error message,
or the plain error string when non-empty, else the title; always sticky. -/
def showError (s : ExtState) (title : String) (err : Option String) : ExtState :=
  notify s "danger" true
    (match err with
     | some e => if e = "" then title else e
     | none => title)

-- === base controller operations (report_builder.js) ===

/-- The fixed type-to-format lookup table `guessFormatType`. -/
def guessFormatType (fieldType : String) : String :=
  if fieldType = "char" then "text"
  else if fieldType = "text" then "text"
  else if fieldType = "integer" then "number"
  else if fieldType = "float" then "number"
  else if fieldType = "monetary" then "currency"
  else if fieldType = "date" then "date"
  else if fieldType = "datetime" then "datetime"
  else if fieldType = "boolean" then "boolean"
  else if fieldType = "selection" then "selection"
  else "text"

/-- `addField(field)`: append a derived FieldSpec when no selected field
has the same name, otherwise warn and leave the list unchanged. -/
def addField (s : ExtState) (field : AvailField) : ExtState :=
  match s.snap.selectedFields.find? (fun f => f.name == field.name) with
  | some _ => showWarning s "Поле вже додано до звіту"
  | none =>
    let fs : FieldSpec :=
      ⟨field.name, field.string, field.type, true,
       s.snap.selectedFields.length + 1, guessFormatType field.type, "none"⟩
    showSuccess
      { s with snap := { s.snap with selectedFields := s.snap.selectedFields ++ [fs] } }
      ("Поле додано: " ++ field.string)

/-- `removeField(fieldName)`. -/
def removeField (s : ExtState) (fieldName : String) : ExtState :=
  match findIdxO (fun f => f.name == fieldName) s.snap.selectedFields with
  | none => s
  | some i =>
    let removed := (nth s.snap.selectedFields i).getD dfltField
    showInfo
      { s with snap := { s.snap with
          selectedFields := s.snap.selectedFields.eraseIdx i } }
      ("Поле видалено: " ++ removed.label)

/-- `moveField(fieldName, direction)`: swap with the neighbour in the
given direction when in bounds, then renumber every sequence; otherwise
a no-op. -/
def moveField (s : ExtState) (fieldName direction : String) : ExtState :=
  let fields := s.snap.selectedFields
  match findIdxO (fun f => f.name == fieldName) fields with
  | none => s
  | some i =>
    let newIndex : Int := if direction = "up" then (i : Int) - 1 else (i : Int) + 1
    if 0 ≤ newIndex ∧ newIndex < (fields.length : Int) then
      let j := newIndex.toNat
      let a := (nth fields i).getD dfltField
      let b := (nth fields j).getD dfltField
      let swapped := setAt (setAt fields i b) j a
      { s with snap := { s.snap with selectedFields := renumberFrom 0 swapped } }
    else s

/-- `validateReportSettings()`: rebuild `state.errors` and return whether
it stayed empty; a non-empty list is surfaced as one joined sticky error. -/
def validateReportSettings (s : ExtState) : ExtState × Bool :=
  let errs0 : List String := []
  let errs1 := if s.selectedModel.isNone then errs0 ++ ["Оберіть модель даних"] else errs0
  let errs2 := if s.snap.selectedFields.length = 0
               then errs1 ++ ["Додайте хоча б одне поле до звіту"] else errs1
  let invalid := s.snap.filters.filter
      (fun f => f.active && f.field != "" && f.value == "" && f.operator != "!=")
  let errs3 := if 0 < invalid.length
               then errs2 ++ ["Заповніть значення для всіх активних фільтрів"] else errs2
  if 0 < errs3.length then
    (showError { s with errors := errs3 }
       "Виправте помилки перед продовженням" (some (String.intercalate "; " errs3)),
     false)
  else
    ({ s with errors := errs3 }, true)

/-- `prepareFilters()`: active, fully specified filters as triples. -/
def prepareFilters (s : ExtState) : List PreparedFilter :=
  (s.snap.filters.filter (fun f => f.active && f.field != "" && f.value != "")).map
    (fun f => ⟨f.field, f.operator, f.value⟩)

/-- `clearReportData()`. -/
def clearReportData (s : ExtState) : ExtState :=
  { s with snap := ⟨[], [], [], []⟩
           reportData := none
           reportCount := 0
           currentStep := 1 }

/-- `clearModelData()`. -/
def clearModelData (s : ExtState) : ExtState :=
  clearReportData { s with selectedModel := none, availableFields := [] }

/-- Outcome of the field-list RPC `/universal_reports/get_model_fields`. -/
inductive FieldsRpc where
  | ok (fields : List AvailField) (message : Option String) : FieldsRpc
  | fail (err : String) : FieldsRpc
  | reject (err : String) : FieldsRpc
deriving DecidableEq, Repr

/-- `onModelChange(modelId)`, parametrised by the RPC outcome.  A falsy
model id clears the dependent state; otherwise the model is resolved
(`selectedModel` is assigned before the RPC is awaited), the field list
is fetched and on success replaces `availableFields` and the report data
is reset; every thrown error is caught and surfaced, the loading flag is
cleared in the `finally` block. -/
def onModelChange (s : ExtState) (modelId : Nat) (rpc : FieldsRpc) : ExtState :=
  if modelId = 0 then clearModelData s
  else
    let s1 := { s with loading := true, errors := [] }
    match s1.availableModels.find? (fun m => m.id == modelId) with
    | none =>
      { showError s1 "Помилка завантаження полів моделі" (some "Модель не знайдена")
        with loading := false }
    | some model =>
      let s2 := { s1 with selectedModel := some model }
      match rpc with
      | .ok fields msg =>
        let s3 := clearReportData { s2 with availableFields := fields }
        { showSuccess s3 (msg.getD "Поля завантажено успішно") with loading := false }
      | .fail err =>
        { showError s2 "Помилка завантаження полів моделі" (some err) with loading := false }
      | .reject err =>
        { showError s2 "Помилка завантаження полів моделі" (some err) with loading := false }

/-- Outcome of the execution RPC `/universal_reports/execute_report`. -/
inductive ExecRpc where
  | ok (data : List Row) (count : Nat) (message : String) : ExecRpc
  | fail (err : String) : ExecRpc
  | reject (err : String) : ExecRpc
deriving DecidableEq, Repr

/-- `executeReport()`, parametrised by the outcome of `createTempReport`
(an ORM create that yields a report id or throws) and of the execution
RPC.  The returned flag records whether the execution RPC was issued. -/
def executeReport (s : ExtState) (create : Except String Nat) (rpc : ExecRpc) :
    ExtState × Bool :=
  match validateReportSettings s with
  | (s', false) => (s', false)
  | (s', true) =>
    let s1 := { s' with loading := true, errors := [] }
    match create with
    | .error e =>
      ({ showError s1 "Помилка виконання звіту" (some e) with loading := false }, false)
    | .ok _reportId =>
      match rpc with
      | .ok data count msg =>
        ({ showSuccess
             { s1 with reportData := some data, reportCount := count } msg
           with currentStep := 4, loading := false }, true)
      | .fail e =>
        ({ showError s1 "Помилка виконання звіту" (some e) with loading := false }, true)
      | .reject e =>
        ({ showError s1 "Помилка виконання звіту" (some e) with loading := false }, true)

-- === extended controller operations (part_000) ===

/-- `generateCacheKey()`: the deterministic key of the cached-execution
path. -/
def generateCacheKey (s : ExtState) : CacheKey :=
  { model := s.selectedModel.map (·.model)
    fields := s.snap.selectedFields.map (·.name)
    filters := prepareFilters s
    sorts := s.snap.sorts.filter (fun so => so.field != "")
    groups := s.snap.groups.filter (fun g => g.field != "") }

/-- `updateExecutionStats(executionTime)`: count increment, last
duration, incremental mean. -/
def updateExecutionStats (s : ExtState) (executionTime : Nat) : ExtState :=
  let st := s.executionStats
  let n := st.totalExecutions + 1
  { s with executionStats :=
      ⟨n,
       (st.avgExecutionTime * (st.totalExecutions : Rat) + (executionTime : Rat)) / (n : Rat),
       executionTime⟩ }

/-- `executeWithCache()`: restore from the cache when the key is
present (no execution RPC), otherwise run `executeReport`, store a
truthy result under the key and update the statistics.  The flag of the
result records whether the execution RPC was issued. -/
def executeWithCache (s : ExtState) (create : Except String Nat) (rpc : ExecRpc)
    (executionTime : Nat) : ExtState × Bool :=
  let key := generateCacheKey s
  match cacheLookup key s.cachedResults with
  | some rows =>
    (showInfo { s with reportData := some rows, reportCount := rows.length }
       "Завантажено з кешу", false)
  | none =>
    let (s1, invoked) := executeReport s create rpc
    let s2 :=
      match s1.reportData with
      | some rows =>
        { s1 with cachedResults := cacheSet key rows s1.cachedResults
                  lastCacheKey := some key }
      | none => s1
    (updateExecutionStats s2 executionTime, invoked)

/-- `addToHistory(action, data)`: deep-copy the four collections into a
new entry, truncate any future entries beyond the cursor, append, move
the cursor to the last index, and evict the oldest entry (decrementing
the cursor) once the log holds more than 50 entries. -/
def addToHistory (s : ExtState) (action : String) (data : HistData) (ts : Nat) : ExtState :=
  let item : HistoryEntry := ⟨action, data, ts, s.snap⟩
  let hist1 := if s.historyIndex < (s.history.length : Int) - 1
               then s.history.take (s.historyIndex + 1).toNat
               else s.history
  let hist2 := hist1 ++ [item]
  if 50 < hist2.length then
    { s with history := hist2.tail, historyIndex := (hist2.length : Int) - 2 }
  else
    { s with history := hist2, historyIndex := (hist2.length : Int) - 1 }

/-- `restoreState(savedState)`: overwrite the four collections wholesale. -/
def restoreState (s : ExtState) (saved : Snapshot) : ExtState :=
  { s with snap := saved }

/-- `undo()`: move the cursor back one position and restore that
snapshot, or warn when already at the oldest entry.  (The `none` branch
models the exception a JS out-of-range index would raise; it is
unreachable from states satisfying the cursor invariant.) -/
def undo (s : ExtState) : ExtState :=
  if 0 < s.historyIndex then
    match nth s.history (s.historyIndex - 1).toNat with
    | some e =>
      { restoreState s e.state with
          historyIndex := s.historyIndex - 1
          notifs := ⟨"info", false, "Дію скасовано"⟩ :: s.notifs }
    | none => s
  else
    showWarning s "Немає дій для скасування"

/-- `redo()`: move the cursor forward one position and restore, or warn
when already at the newest entry. -/
def redo (s : ExtState) : ExtState :=
  if s.historyIndex < (s.history.length : Int) - 1 then
    match nth s.history (s.historyIndex + 1).toNat with
    | some e =>
      { restoreState s e.state with
          historyIndex := s.historyIndex + 1
          notifs := ⟨"info", false, "Дію повторено"⟩ :: s.notifs }
    | none => s
  else
    showWarning s "Немає дій для повторення"

/-- `duplicateField(fieldName)`: clone the named field (same `name`,
label suffixed, sequence = current length + 1), append, log a history
entry. -/
def duplicateField (s : ExtState) (fieldName : String) (ts : Nat) : ExtState :=
  match s.snap.selectedFields.find? (fun f => f.name == fieldName) with
  | none => s
  | some orig =>
    let dup : FieldSpec :=
      { orig with label := orig.label ++ " (копія)"
                  sequence := s.snap.selectedFields.length + 1 }
    let s1 := { s with snap := { s.snap with
        selectedFields := s.snap.selectedFields ++ [dup] } }
    let s2 := addToHistory s1 "duplicate_field" (.fieldName fieldName) ts
    showSuccess s2 "Поле продубльовано"

/-- The candidate list computed by `bulkAddFields` before opening the
dialog: available fields not yet selected by name. -/
def bulkAddCandidates (s : ExtState) : List AvailField :=
  s.availableFields.filter
    (fun af => (s.snap.selectedFields.find? (fun sf => sf.name == af.name)).isNone)

/-- The `forEach` push loop of the bulk-add confirmation callback.  Note
that `this.state.selectedFields.length` is read after the earlier pushes
of the same loop, so the stored sequence is `acc.length + index + 1`. -/
def bulkPush : List AvailField → Nat → List FieldSpec → List FieldSpec
  | [], _, acc => acc
  | c :: rest, i, acc =>
    bulkPush rest (i + 1)
      (acc ++ [⟨c.name, c.string, c.type, true, acc.length + i + 1,
               guessFormatType c.type, "none"⟩])

/-- The `onConfirm` callback of the bulk-add dialog: push one FieldSpec
per chosen field, log one history entry recording the count, notify. -/
def bulkAddConfirm (s : ExtState) (chosen : List AvailField) (ts : Nat) : ExtState :=
  let s1 := { s with snap := { s.snap with
      selectedFields := bulkPush chosen 0 s.snap.selectedFields } }
  let s2 := addToHistory s1 "bulk_add_fields" (.count chosen.length) ts
  showSuccess s2 ("Додано полів: " ++ toString chosen.length)

/-- One history-producing step of a run: the producing action leaves the
four collections in the given snapshot and then calls `addToHistory`. -/
structure HistInput where
  action : String
  data : HistData
  ts : Nat
  snap : Snapshot
deriving DecidableEq, Repr

/-- The entry such a step appends. -/
def mkEntry (x : HistInput) : HistoryEntry := ⟨x.action, x.data, x.ts, x.snap⟩

/-- One step of a history run. -/
def histStep (s : ExtState) (x : HistInput) : ExtState :=
  addToHistory { s with snap := x.snap } x.action x.data x.ts

/-- A sequence of history-producing actions performed from the pristine
state. -/
def runHistory (inputs : List HistInput) : ExtState :=
  inputs.foldl histStep initState

-- === reference-semantics model of the history snapshots (claim C3) ===

/-- The four array references held by either the live state or a stored
history entry. -/
structure RefIds where
  fieldsId : Nat
  filtersId : Nat
  groupsId : Nat
  sortsId : Nat
deriving DecidableEq, Repr

/-- A history entry in the reference model: it stores references to the
heap cells holding its snapshot (the JS entry holds the object produced
by `JSON.parse(JSON.stringify(...))`). -/
structure RefHistEntry where
  action : String
  ids : RefIds
deriving DecidableEq, Repr

/-- Controller state with an explicit heap of array cells, one map per
collection type.  `live` holds the references currently installed in
`this.state`; fresh cells come from the counter `fresh`. -/
structure RefState where
  hFields : Nat → List FieldSpec
  hFilters : Nat → List FilterSpec
  hGroups : Nat → List GroupSpec
  hSorts : Nat → List SortSpec
  fresh : Nat
  live : RefIds
  history : List RefHistEntry
  historyIndex : Int

/-- Heap-cell update. -/
def updFn {α : Type} (f : Nat → α) (i : Nat) (v : α) : Nat → α :=
  fun j => if j = i then v else f j

/-- `addToHistory` in the reference model: `JSON.parse(JSON.stringify(...))`
allocates four fresh cells holding copies of the live contents; the entry
keeps references to those fresh cells; then the usual truncate / push /
advance / evict bookkeeping. -/
def addToHistoryRef (s : RefState) (action : String) : RefState :=
  let ids : RefIds := ⟨s.fresh, s.fresh + 1, s.fresh + 2, s.fresh + 3⟩
  let s1 := { s with
    hFields := updFn s.hFields ids.fieldsId (s.hFields s.live.fieldsId)
    hFilters := updFn s.hFilters ids.filtersId (s.hFilters s.live.filtersId)
    hGroups := updFn s.hGroups ids.groupsId (s.hGroups s.live.groupsId)
    hSorts := updFn s.hSorts ids.sortsId (s.hSorts s.live.sortsId)
    fresh := s.fresh + 4 }
  let hist1 := if s1.historyIndex < (s1.history.length : Int) - 1
               then s1.history.take (s1.historyIndex + 1).toNat
               else s1.history
  let hist2 := hist1 ++ [⟨action, ids⟩]
  if 50 < hist2.length then
    { s1 with history := hist2.tail, historyIndex := (hist2.length : Int) - 2 }
  else
    { s1 with history := hist2, historyIndex := (hist2.length : Int) - 1 }

/-- `restoreState` in the reference model: `Object.assign(this.state,
savedState)` installs the references of the stored snapshot into the
live state — it does not copy the arrays. -/
def restoreStateRef (s : RefState) (ids : RefIds) : RefState :=
  { s with live := ids }

/-- `undo()` in the reference model. -/
def undoRef (s : RefState) : RefState :=
  if 0 < s.historyIndex then
    match nth s.history (s.historyIndex - 1).toNat with
    | some e => { restoreStateRef s e.ids with historyIndex := s.historyIndex - 1 }
    | none => s
  else s

/-- An in-place mutation of the live `selectedFields` array
(`this.state.selectedFields.push(f)`). -/
def pushFieldRef (s : RefState) (f : FieldSpec) : RefState :=
  { s with hFields := updFn s.hFields s.live.fieldsId (s.hFields s.live.fieldsId ++ [f]) }

/-- In-place mutation of the live `filters` array. -/
def pushFilterRef (s : RefState) (f : FilterSpec) : RefState :=
  { s with hFilters := updFn s.hFilters s.live.filtersId (s.hFilters s.live.filtersId ++ [f]) }

/-- In-place mutation of the live `groups` array. -/
def pushGroupRef (s : RefState) (g : GroupSpec) : RefState :=
  { s with hGroups := updFn s.hGroups s.live.groupsId (s.hGroups s.live.groupsId ++ [g]) }

/-- In-place mutation of the live `sorts` array. -/
def pushSortRef (s : RefState) (so : SortSpec) : RefState :=
  { s with hSorts := updFn s.hSorts s.live.sortsId (s.hSorts s.live.sortsId ++ [so]) }

/-- Pristine reference state: live cells 0..3, all cells empty. -/
def refInit : RefState :=
  { hFields := fun _ => []
    hFilters := fun _ => []
    hGroups := fun _ => []
    hSorts := fun _ => []
    fresh := 4
    live := ⟨0, 1, 2, 3⟩
    history := []
    historyIndex := -1 }

-- === concrete instances used by witnesses and counterexamples ===

/-- A sample selected field. -/
def fA : FieldSpec := ⟨"name", "Name", "char", true, 1, "text", "none"⟩

/-- A second sample field. -/
def fB : FieldSpec := ⟨"email", "Email", "char", true, 2, "text", "none"⟩

/-- A sample available-field descriptor. -/
def afName : AvailField := ⟨"name", "Name", "char"⟩

/-- A second sample available-field descriptor. -/
def afEmail : AvailField := ⟨"email", "Email", "char"⟩

/-- A sample model. -/
def mOld : Model := ⟨1, "Contact", "res.partner"⟩

/-- A second sample model. -/
def mNew : Model := ⟨2, "Sale Order", "sale.order"⟩

/-- The list of FieldSpecs appended by the bulk-add confirmation loop,
described non-recursively: starting from a selection of length `L`, the
element built at loop index `i` carries sequence `L + i + 1` where `L`
has already grown by the earlier pushes of the same loop. -/
def bulkShape : Nat → Nat → List AvailField → List FieldSpec
  | _, _, [] => []
  | L, i, c :: rest =>
    ⟨c.name, c.string, c.type, true, L + i + 1, guessFormatType c.type, "none"⟩
      :: bulkShape (L + 1) (i + 1) rest

/-- The list produced by the in-bounds branch of `moveField`: the
simultaneous swap of positions `i` and `j` followed by the sequence
renumbering loop. -/
def swapRenumber (fields : List FieldSpec) (i j : Nat) : List FieldSpec :=
  renumberFrom 0 (setAt (setAt fields i ((nth fields j).getD dfltField)) j
    ((nth fields i).getD dfltField))

/-- State with one selected field, used to exhibit the duplicate name
produced by `duplicateField`. -/
def c4State : ExtState := { initState with snap := ⟨[fA], [], [], []⟩ }

/-- State on which the field-list fetch will fail: an old model is
selected, the requested model id resolves to `mNew`. -/
def c9State : ExtState :=
  { initState with
      selectedModel := some mOld
      availableModels := [mOld, mNew]
      availableFields := [afName]
      snap := ⟨[fA], [], [], []⟩
      reportData := some [5]
      reportCount := 1 }

/-- The cache key of the pristine state. -/
def key0 : CacheKey := generateCacheKey initState

/-- State whose cache already holds rows under its own key. -/
def c5State : ExtState := { initState with cachedResults := [(key0, [7])] }

/-- History entry used by round-trip witnesses. -/
def entryA : HistoryEntry := ⟨"a", .noData, 0, ⟨[], [], [], []⟩⟩

/-- Second history entry; its snapshot holds one field. -/
def entryB : HistoryEntry := ⟨"b", .noData, 1, ⟨[fA], [], [], []⟩⟩

/-- State with two history entries, cursor at the newest, live
collections in sync with the newest snapshot. -/
def c1State : ExtState :=
  { initState with
      snap := ⟨[fA], [], [], []⟩
      history := [entryA, entryB]
      historyIndex := 1 }

/-- 51 history-producing actions. -/
def inputs51 : List HistInput :=
  (List.range 51).map (fun i => ⟨"a", .noData, i, ⟨[], [], [], []⟩⟩)

/-- Reference-model run, step 1: first snapshot (cells 4..7). -/
def refRun1 : RefState := addToHistoryRef refInit "a"

/-- Step 2: a field is pushed onto the live `selectedFields` (cell 0). -/
def refRun2 : RefState := pushFieldRef refRun1 fA

/-- Step 3: second snapshot (cells 8..11). -/
def refRun3 : RefState := addToHistoryRef refRun2 "b"

/-- Step 4: `undo()` — the live references now alias the first
snapshot's cells. -/
def refRun4 : RefState := undoRef refRun3

/-- Step 5: a push on the live `selectedFields` now writes through the
alias into the stored snapshot (cell 4). -/
def refRun5 : RefState := pushFieldRef refRun4 fB

-- === helper lemmas about the list primitives ===

theorem nth_append_left {α : Type} (l l' : List α) (k : Nat) (h : k < l.length) :
    nth (l ++ l') k = nth l k := by
  induction l generalizing k with
  | nil => simp at h
  | cons x rest ih =>
    cases k with
    | zero => rfl
    | succ k => exact ih k (Nat.lt_of_succ_lt_succ h)

theorem nth_append_right {α : Type} (l l' : List α) (k : Nat) :
    nth (l ++ l') (l.length + k) = nth l' k := by
  induction l with
  | nil => simp [Nat.zero_add]
  | cons x rest ih =>
    have hx : (x :: rest).length + k = (rest.length + k) + 1 := by
      simp [List.length_cons]; omega
    rw [hx]
    exact ih

theorem nth_concat_last {α : Type} (l : List α) (x : α) : nth (l ++ [x]) l.length = some x := by
  have := nth_append_right l [x] 0
  rwa [Nat.add_zero] at this

theorem nth_take {α : Type} (l : List α) (n k : Nat) (h : k < n) :
    nth (l.take n) k = nth l k := by
  induction l generalizing n k with
  | nil => simp [List.take_nil]
  | cons x rest ih =>
    cases n with
    | zero => omega
    | succ n =>
      cases k with
      | zero => rfl
      | succ k => exact ih n k (Nat.lt_of_succ_lt_succ h)

theorem nth_lt_length {α : Type} (l : List α) (k : Nat) (h : k < l.length) :
    ∃ x, nth l k = some x := by
  induction l generalizing k with
  | nil => simp at h
  | cons x rest ih =>
    cases k with
    | zero => exact ⟨x, rfl⟩
    | succ k => exact ih k (Nat.lt_of_succ_lt_succ h)

theorem nth_tail {α : Type} (l : List α) (k : Nat) : nth l.tail k = nth l (k + 1) := by
  cases l <;> rfl

theorem drop_concat {α : Type} (l : List α) (x : α) (n : Nat) (h : n ≤ l.length) :
    (l ++ [x]).drop n = l.drop n ++ [x] := by
  induction l generalizing n with
  | nil =>
    have : n = 0 := by simpa using h
    simp [this]
  | cons y rest ih =>
    cases n with
    | zero => rfl
    | succ n => exact ih n (by simpa using h)

theorem tail_drop_succ {α : Type} (l : List α) (n : Nat) : (l.drop n).tail = l.drop (n + 1) := by
  induction l generalizing n with
  | nil => simp
  | cons y rest ih =>
    cases n with
    | zero => rfl
    | succ n => exact ih n

theorem findIdxO_none_forall {α : Type} (p : α → Bool) :
    ∀ l : List α, findIdxO p l = none → ∀ x ∈ l, p x = false := by
  intro l
  induction l with
  | nil => intro _ x hx; simp at hx
  | cons y rest ih =>
    intro h x hx
    rw [findIdxO] at h
    by_cases hy : p y = true
    · rw [if_pos hy] at h; exact absurd h (by simp)
    · rw [if_neg hy] at h
      rcases List.mem_cons.mp hx with rfl | hx'
      · cases hpx : p x
        · rfl
        · exact absurd hpx hy
      · refine ih ?_ x hx'
        cases hr : findIdxO p rest with
        | none => rfl
        | some v => rw [hr] at h; simp at h

theorem findIdxO_some_lt {α : Type} (p : α → Bool) :
    ∀ (l : List α) (i : Nat), findIdxO p l = some i → i < l.length := by
  intro l
  induction l with
  | nil => intro i h; simp [findIdxO] at h
  | cons y rest ih =>
    intro i h
    rw [findIdxO] at h
    by_cases hy : p y = true
    · rw [if_pos hy] at h
      injection h with h2
      simp [← h2]
    · rw [if_neg hy] at h
      cases hr : findIdxO p rest with
      | none => rw [hr] at h; simp at h
      | some v =>
        rw [hr] at h
        simp only [Option.map_some'] at h
        injection h with h2
        have := ih v hr
        simp [List.length_cons]
        omega

theorem length_setAt {α : Type} : ∀ (l : List α) (i : Nat) (v : α),
    (setAt l i v).length = l.length := by
  intro l
  induction l with
  | nil => intro i v; rfl
  | cons x rest ih =>
    intro i v
    cases i with
    | zero => rfl
    | succ i => simp [setAt, ih]

theorem nth_setAt_self {α : Type} : ∀ (l : List α) (i : Nat) (v : α), i < l.length →
    nth (setAt l i v) i = some v := by
  intro l
  induction l with
  | nil => intro i v h; simp at h
  | cons x rest ih =>
    intro i v h
    cases i with
    | zero => rfl
    | succ i => exact ih i v (Nat.lt_of_succ_lt_succ h)

theorem nth_setAt_ne {α : Type} : ∀ (l : List α) (i : Nat) (v : α) (k : Nat), k ≠ i →
    nth (setAt l i v) k = nth l k := by
  intro l
  induction l with
  | nil => intros; rfl
  | cons x rest ih =>
    intro i v k hk
    cases i with
    | zero =>
      cases k with
      | zero => exact absurd rfl hk
      | succ k => rfl
    | succ i =>
      cases k with
      | zero => rfl
      | succ k => exact ih i v k (fun h => hk (by rw [h]))

theorem length_renumberFrom : ∀ (n : Nat) (l : List FieldSpec),
    (renumberFrom n l).length = l.length := by
  intro n l
  induction l generalizing n with
  | nil => rfl
  | cons f rest ih => simp [renumberFrom, ih]

theorem nth_renumberFrom : ∀ (n : Nat) (l : List FieldSpec) (k : Nat),
    nth (renumberFrom n l) k = (nth l k).map (fun f => { f with sequence := n + k + 1 }) := by
  intro n l
  induction l generalizing n with
  | nil => intro k; rfl
  | cons f rest ih =>
    intro k
    cases k with
    | zero => rfl
    | succ k =>
      show nth (renumberFrom (n + 1) rest) k
        = (nth rest k).map (fun f => { f with sequence := n + (k + 1) + 1 })
      rw [ih (n + 1) k]
      have harith : n + 1 + k + 1 = n + (k + 1) + 1 := by omega
      rw [harith]

theorem bulkPush_eq : ∀ (chosen : List AvailField) (i : Nat) (acc : List FieldSpec),
    bulkPush chosen i acc = acc ++ bulkShape acc.length i chosen := by
  intro chosen
  induction chosen with
  | nil => intro i acc; simp [bulkPush, bulkShape]
  | cons c rest ih =>
    intro i acc
    rw [bulkPush, ih]
    rw [show (acc ++ [(⟨c.name, c.string, c.type, true, acc.length + i + 1,
          guessFormatType c.type, "none"⟩ : FieldSpec)]).length = acc.length + 1 by
        simp]
    rw [bulkShape, List.append_assoc, List.singleton_append]

theorem length_bulkShape : ∀ (chosen : List AvailField) (L i : Nat),
    (bulkShape L i chosen).length = chosen.length := by
  intro chosen
  induction chosen with
  | nil => intros; rfl
  | cons c rest ih => intro L i; simp [bulkShape, ih]

theorem nth_bulkShape : ∀ (chosen : List AvailField) (L i k : Nat),
    nth (bulkShape L i chosen) k = (nth chosen k).map
      (fun c => ⟨c.name, c.string, c.type, true, L + i + 2 * k + 1,
                 guessFormatType c.type, "none"⟩) := by
  intro chosen
  induction chosen with
  | nil => intros; rfl
  | cons c rest ih =>
    intro L i k
    cases k with
    | zero => rfl
    | succ k =>
      show nth (bulkShape (L + 1) (i + 1) rest) k = _
      rw [ih (L + 1) (i + 1) k]
      have harith : L + 1 + (i + 1) + 2 * k + 1 = L + i + 2 * (k + 1) + 1 := by omega
      rw [harith]
      rfl

theorem bulkShape_names : ∀ (chosen : List AvailField) (L i : Nat),
    (bulkShape L i chosen).map FieldSpec.name = chosen.map AvailField.name := by
  intro chosen
  induction chosen with
  | nil => intros; rfl
  | cons c rest ih => intro L i; simp [bulkShape, ih]

-- === characterization lemmas for the history operations ===

theorem addToHistory_snap (s : ExtState) (a : String) (d : HistData) (ts : Nat) :
    (addToHistory s a d ts).snap = s.snap := by
  rw [addToHistory]
  split <;> split <;> rfl

theorem addToHistory_historyIndex (s : ExtState) (a : String) (d : HistData) (ts : Nat) :
    (addToHistory s a d ts).historyIndex = ((addToHistory s a d ts).history.length : Int) - 1 := by
  rw [addToHistory]
  split <;> split
  all_goals first
    | rfl
    | (simp only [List.length_tail]; omega)

theorem addToHistory_length_ge_two (s : ExtState) (a : String) (d : HistData) (ts : Nat)
    (h0 : 0 ≤ s.historyIndex) (hlt : s.historyIndex < (s.history.length : Int)) :
    2 ≤ (addToHistory s a d ts).history.length := by
  rw [addToHistory]
  split <;> split
  all_goals
    simp only [List.length_tail, List.length_append, List.length_take,
      List.length_singleton] at *
  all_goals omega

theorem nth_last_concat {α : Type} (X : List α) (x : α) :
    nth (X ++ [x]) ((X ++ [x]).length - 1) = some x := by
  have hlen : (X ++ [x]).length - 1 = X.length := by simp
  rw [hlen]
  exact nth_concat_last X x

theorem nth_last_concat_tail {α : Type} (X : List α) (x : α) (h : X ≠ []) :
    nth ((X ++ [x]).tail) (((X ++ [x]).tail).length - 1) = some x := by
  cases X with
  | nil => exact absurd rfl h
  | cons y X' =>
    show nth (X' ++ [x]) ((X' ++ [x]).length - 1) = some x
    exact nth_last_concat X' x

theorem addToHistory_nth_last (s : ExtState) (a : String) (d : HistData) (ts : Nat) :
    nth (addToHistory s a d ts).history ((addToHistory s a d ts).history.length - 1)
      = some ⟨a, d, ts, s.snap⟩ := by
  rw [addToHistory]
  split <;> split
  · next h => exact nth_last_concat_tail _ _ (by intro hX; rw [hX] at h; simp at h)
  · next h => exact nth_last_concat _ _
  · next h => exact nth_last_concat_tail _ _ (by intro hX; rw [hX] at h; simp at h)
  · next h => exact nth_last_concat _ _

theorem nth_penult_concat {α : Type} (X : List α) (x : α) (k : Nat) (hk : k + 1 = X.length) :
    nth (X ++ [x]) ((X ++ [x]).length - 2) = nth X k := by
  have hlen : (X ++ [x]).length - 2 = k := by simp; omega
  rw [hlen]
  exact nth_append_left X [x] k (by omega)

theorem nth_penult_concat_tail {α : Type} (X : List α) (x : α) (k : Nat)
    (hk : k + 1 = X.length) (h2 : 2 ≤ X.length) :
    nth ((X ++ [x]).tail) (((X ++ [x]).tail).length - 2) = nth X k := by
  cases X with
  | nil => simp at hk
  | cons y X' =>
    show nth (X' ++ [x]) ((X' ++ [x]).length - 2) = nth (y :: X') k
    have hk' : k = X'.length := by simp at hk; omega
    have h2' : 1 ≤ X'.length := by simp at h2; omega
    have hlen : (X' ++ [x]).length - 2 = k - 1 := by simp; omega
    rw [hlen]
    have hklt : k - 1 < X'.length := by omega
    rw [nth_append_left X' [x] _ hklt]
    cases k with
    | zero => omega
    | succ k0 =>
      show nth X' (k0 + 1 - 1) = nth X' k0
      rw [Nat.add_sub_cancel]

theorem addToHistory_nth_penult (s : ExtState) (a : String) (d : HistData) (ts : Nat)
    (h0 : 0 ≤ s.historyIndex) (hlt : s.historyIndex < (s.history.length : Int)) :
    nth (addToHistory s a d ts).history ((addToHistory s a d ts).history.length - 2)
      = nth s.history s.historyIndex.toNat := by
  rw [addToHistory]
  split
  · next htr =>
    have hlen : (s.history.take (s.historyIndex + 1).toNat).length
        = s.historyIndex.toNat + 1 := by
      simp only [List.length_take]; omega
    have hk : s.historyIndex.toNat + 1 = (s.history.take (s.historyIndex + 1).toNat).length := by
      omega
    split
    · next hev =>
      rw [nth_penult_concat_tail _ _ _ hk (by
        simp only [List.length_append, List.length_singleton] at hev; omega)]
      exact nth_take _ _ _ (by omega)
    · next hev =>
      rw [nth_penult_concat _ _ _ hk]
      exact nth_take _ _ _ (by omega)
  · next htr =>
    have hk : s.historyIndex.toNat + 1 = s.history.length := by omega
    split
    · next hev =>
      rw [nth_penult_concat_tail _ _ _ hk (by
        simp only [List.length_append, List.length_singleton] at hev; omega)]
    · next hev =>
      rw [nth_penult_concat _ _ _ hk]

theorem undo_eq_restore (s : ExtState) (e : HistoryEntry)
    (hg : 0 < s.historyIndex)
    (he : nth s.history (s.historyIndex - 1).toNat = some e) :
    undo s = { s with snap := e.state
                      historyIndex := s.historyIndex - 1
                      notifs := ⟨"info", false, "Дію скасовано"⟩ :: s.notifs } := by
  rw [undo, if_pos hg, he]
  rfl

theorem redo_eq_restore (s : ExtState) (e : HistoryEntry)
    (hg : s.historyIndex < (s.history.length : Int) - 1)
    (he : nth s.history (s.historyIndex + 1).toNat = some e) :
    redo s = { s with snap := e.state
                      historyIndex := s.historyIndex + 1
                      notifs := ⟨"info", false, "Дію повторено"⟩ :: s.notifs } := by
  rw [redo, if_pos hg, he]
  rfl

theorem undo_warn (s : ExtState) (hg : ¬ 0 < s.historyIndex) :
    undo s = showWarning s "Немає дій для скасування" := by
  rw [undo, if_neg hg]

theorem redo_warn (s : ExtState) (hg : ¬ s.historyIndex < (s.history.length : Int) - 1) :
    redo s = showWarning s "Немає дій для повторення" := by
  rw [redo, if_neg hg]

-- === helper lemmas for moveField ===

theorem moveField_eq_none (s : ExtState) (fieldName direction : String)
    (h : findIdxO (fun f => f.name == fieldName) s.snap.selectedFields = none) :
    moveField s fieldName direction = s := by
  simp only [moveField, h]

theorem moveField_eq_noop (s : ExtState) (fieldName direction : String) (i : Nat)
    (hi : findIdxO (fun f => f.name == fieldName) s.snap.selectedFields = some i)
    (hcond : ¬ (0 ≤ (if direction = "up" then (i : Int) - 1 else (i : Int) + 1) ∧
                (if direction = "up" then (i : Int) - 1 else (i : Int) + 1)
                  < (s.snap.selectedFields.length : Int))) :
    moveField s fieldName direction = s := by
  simp only [moveField, hi]
  rw [if_neg hcond]

theorem moveField_eq_swap (s : ExtState) (fieldName direction : String) (i j : Nat)
    (hi : findIdxO (fun f => f.name == fieldName) s.snap.selectedFields = some i)
    (hj : (if direction = "up" then (i : Int) - 1 else (i : Int) + 1) = (j : Int))
    (hjlt : j < s.snap.selectedFields.length) :
    moveField s fieldName direction =
      { s with snap :=
          { s.snap with selectedFields := swapRenumber s.snap.selectedFields i j } } := by
  simp only [moveField, hi]
  rw [hj]
  rw [if_pos ⟨Int.natCast_nonneg j, by exact_mod_cast hjlt⟩]
  simp only [Int.toNat_natCast]
  rfl

theorem length_swapRenumber (fields : List FieldSpec) (i j : Nat) :
    (swapRenumber fields i j).length = fields.length := by
  rw [swapRenumber, length_renumberFrom, length_setAt, length_setAt]

theorem nth_swapRenumber (fields : List FieldSpec) (i j k : Nat)
    (hi : i < fields.length) (hj : j < fields.length) (hij : i ≠ j) (hk : k < fields.length) :
    nth (swapRenumber fields i j) k
      = some { (if k = i then (nth fields j).getD dfltField
                else if k = j then (nth fields i).getD dfltField
                else (nth fields k).getD dfltField)
               with sequence := k + 1 } := by
  rw [swapRenumber, nth_renumberFrom]
  by_cases hki : k = i
  · subst hki
    rw [nth_setAt_ne _ _ _ _ hij]
    rw [nth_setAt_self _ _ _ hi]
    simp [hij, Nat.zero_add]
  · by_cases hkj : k = j
    · subst hkj
      rw [nth_setAt_self _ _ _ (by rw [length_setAt]; exact hj)]
      simp [hki, Nat.zero_add]
    · rw [nth_setAt_ne _ _ _ _ hkj, nth_setAt_ne _ _ _ _ hki]
      obtain ⟨v, hv⟩ := nth_lt_length fields k hk
      rw [hv]
      simp [hki, hkj, Nat.zero_add, hv]

-- === claims ===

/-- Claim C7: `moveField(name, direction)` is a no-op when the named
field is absent, or when moving the first field up or the last field
down; otherwise it swaps exactly the named field with its immediate
neighbour in the given direction, and afterwards every field's sequence
equals its 1-based position in `selectedFields`. -/
theorem moveField_spec (s : ExtState) (fieldName direction : String) :
    (findIdxO (fun f => f.name == fieldName) s.snap.selectedFields = none →
       moveField s fieldName direction = s) ∧
    (∀ i : Nat, findIdxO (fun f => f.name == fieldName) s.snap.selectedFields = some i →
       (((direction = "up" ∧ i = 0) ∨
         (direction ≠ "up" ∧ i + 1 = s.snap.selectedFields.length)) →
          moveField s fieldName direction = s) ∧
       (∀ j : Nat,
          ((direction = "up" ∧ i = j + 1) ∨
           (direction ≠ "up" ∧ j = i + 1 ∧ j < s.snap.selectedFields.length)) →
          (moveField s fieldName direction).snap.selectedFields.length
              = s.snap.selectedFields.length ∧
          (∀ k : Nat, k < s.snap.selectedFields.length →
             nth (moveField s fieldName direction).snap.selectedFields k =
               some { (if k = i then (nth s.snap.selectedFields j).getD dfltField
                       else if k = j then (nth s.snap.selectedFields i).getD dfltField
                       else (nth s.snap.selectedFields k).getD dfltField)
                      with sequence := k + 1 }))) := by
  refine ⟨fun hnone => moveField_eq_none s fieldName direction hnone, ?_⟩
  intro i hi
  have hilt : i < s.snap.selectedFields.length := findIdxO_some_lt _ _ _ hi
  constructor
  · rintro (⟨hdir, hi0⟩ | ⟨hdir, hlast⟩)
    · subst hdir
      subst hi0
      exact moveField_eq_noop s fieldName "up" 0 hi (by
        rw [if_pos rfl]
        rintro ⟨hc, -⟩
        omega)
    · exact moveField_eq_noop s fieldName direction i hi (by
        rw [if_neg hdir]
        rintro ⟨-, hc⟩
        omega)
  · rintro j (⟨hdir, hij⟩ | ⟨hdir, hij, hjlt⟩)
    · subst hdir
      have hjlt : j < s.snap.selectedFields.length := by omega
      have hswap := moveField_eq_swap s fieldName "up" i j hi (by rw [if_pos rfl]; omega) hjlt
      rw [hswap]
      exact ⟨length_swapRenumber _ _ _,
        fun k hk => nth_swapRenumber _ i j k hilt hjlt (by omega) hk⟩
    · have hswap := moveField_eq_swap s fieldName direction i j hi
        (by rw [if_neg hdir]; omega) hjlt
      rw [hswap]
      exact ⟨length_swapRenumber _ _ _,
        fun k hk => nth_swapRenumber _ i j k hilt hjlt (by omega) hk⟩

/-- Witness for C7: in a two-field state, moving the second field up
swaps the two fields and renumbers their sequences to 1 and 2. -/
theorem moveField_spec_witness :
    findIdxO (fun f => f.name == "email") (⟨[fA, fB], [], [], []⟩ : Snapshot).selectedFields
        = some 1 ∧
    nth (moveField { initState with snap := ⟨[fA, fB], [], [], []⟩ } "email"
        "up").snap.selectedFields 0 = some { fB with sequence := 1 } ∧
    nth (moveField { initState with snap := ⟨[fA, fB], [], [], []⟩ } "email"
        "up").snap.selectedFields 1 = some { fA with sequence := 2 } := by
  have h := moveField_spec { initState with snap := ⟨[fA, fB], [], [], []⟩ } "email" "up"
  have h2 := ((h.2 1 (by decide)).2 0 (Or.inl ⟨rfl, rfl⟩))
  refine ⟨by decide, ?_, ?_⟩
  · have := h2.2 0 (by decide)
    simpa using this
  · have := h2.2 1 (by decide)
    simpa using this

/-- Claim C6: `validateReportSettings` returns false and leaves at least
one error string in `state.errors` exactly when no model is selected, or
no fields are selected, or some filter is active with a non-empty field,
an empty value and an operator other than "!="; in every other state it
returns true and `state.errors` is empty. -/
theorem validateReportSettings_spec (s : ExtState) :
    (((validateReportSettings s).2 = false ∧ (validateReportSettings s).1.errors ≠ []) ↔
      (s.selectedModel = none ∨ s.snap.selectedFields = [] ∨
       ∃ f ∈ s.snap.filters,
         f.active = true ∧ f.field ≠ "" ∧ f.value = "" ∧ f.operator ≠ "!=")) ∧
    (((validateReportSettings s).2 = true ∧ (validateReportSettings s).1.errors = []) ↔
      ¬ (s.selectedModel = none ∨ s.snap.selectedFields = [] ∨
         ∃ f ∈ s.snap.filters,
           f.active = true ∧ f.field ≠ "" ∧ f.value = "" ∧ f.operator ≠ "!=")) := by
  have hfilt : (0 < (s.snap.filters.filter
        (fun f => f.active && f.field != "" && f.value == "" && f.operator != "!=")).length) ↔
      (∃ f ∈ s.snap.filters,
        f.active = true ∧ f.field ≠ "" ∧ f.value = "" ∧ f.operator ≠ "!=") := by
    rw [List.length_pos_iff_exists_mem]
    constructor
    · rintro ⟨f, hf⟩
      rw [List.mem_filter] at hf
      obtain ⟨hmem, hp⟩ := hf
      refine ⟨f, hmem, ?_⟩
      simpa [Bool.and_eq_true, bne_iff_ne, beq_iff_eq, and_assoc] using hp
    · rintro ⟨f, hmem, h1, h2, h3, h4⟩
      exact ⟨f, List.mem_filter.mpr ⟨hmem, by simp [h1, h2, h3, h4]⟩⟩
  by_cases h1 : s.selectedModel = none <;>
  by_cases h2 : s.snap.selectedFields = [] <;>
  by_cases h3 : 0 < (s.snap.filters.filter
      (fun f => f.active && f.field != "" && f.value == "" && f.operator != "!=")).length <;>
  simp [validateReportSettings, h1, h2, h3, ← hfilt, showError, notify,
    Option.isNone_iff_eq_none, List.length_eq_zero]

/-- Claim C5: states that agree on the selected model, the selected
field names, the prepared filters, the sorts with non-empty field and
the groups with non-empty field produce the same cache key; and when
`executeWithCache` finds the key in the cache it restores
`reportData`/`reportCount` from the cache without issuing the execution
RPC. -/
theorem cache_deterministic_and_hit (s1 s2 : ExtState) (create : Except String Nat)
    (rpc : ExecRpc) (t : Nat)
    (hm : s1.selectedModel = s2.selectedModel)
    (hf : s1.snap.selectedFields.map FieldSpec.name = s2.snap.selectedFields.map FieldSpec.name)
    (hfl : prepareFilters s1 = prepareFilters s2)
    (hso : s1.snap.sorts.filter (fun so => so.field != "")
            = s2.snap.sorts.filter (fun so => so.field != ""))
    (hg : s1.snap.groups.filter (fun g => g.field != "")
            = s2.snap.groups.filter (fun g => g.field != "")) :
    generateCacheKey s1 = generateCacheKey s2 ∧
    ∀ rows : List Row, cacheLookup (generateCacheKey s2) s2.cachedResults = some rows →
      (executeWithCache s2 create rpc t).2 = false ∧
      (executeWithCache s2 create rpc t).1.reportData = some rows ∧
      (executeWithCache s2 create rpc t).1.reportCount = rows.length := by
  constructor
  · rw [generateCacheKey, generateCacheKey, hm, hf, hfl, hso, hg]
  · intro rows hrows
    refine ⟨?_, ?_, ?_⟩ <;> simp [executeWithCache, hrows, showInfo, notify]

/-- Witness for C5: a state whose cache holds rows under its own key is
served from the cache without issuing the execution RPC. -/
theorem cache_deterministic_and_hit_witness :
    cacheLookup (generateCacheKey c5State) c5State.cachedResults = some [7] ∧
    (executeWithCache c5State (Except.ok 1) (ExecRpc.ok [] 0 "") 5).2 = false ∧
    (executeWithCache c5State (Except.ok 1) (ExecRpc.ok [] 0 "") 5).1.reportData = some [7] := by
  have h := (cache_deterministic_and_hit c5State c5State (Except.ok 1) (ExecRpc.ok [] 0 "") 5
    rfl rfl rfl rfl rfl).2 [7] (by decide)
  exact ⟨by decide, h.1, h.2.1⟩

/-- Claim C1: from a state whose history tracks all mutations (the live
collections equal the snapshot under the cursor) with at least two
entries, performing a history-logged action that leaves the collections
in state `m` and then calling `undo()` restores the four collections
exactly to their pre-action values; calling `redo()` immediately
afterwards restores them exactly to their post-action values. -/
theorem undo_redo_round_trip (s : ExtState) (m : Snapshot) (a : String) (d : HistData)
    (ts : Nat) (e : HistoryEntry)
    (_hlen : 2 ≤ s.history.length)
    (h0 : 0 ≤ s.historyIndex)
    (hlt : s.historyIndex < (s.history.length : Int))
    (hcur : nth s.history s.historyIndex.toNat = some e)
    (hsync : e.state = s.snap) :
    (undo (addToHistory { s with snap := m } a d ts)).snap = s.snap ∧
    (redo (undo (addToHistory { s with snap := m } a d ts))).snap = m := by
  set s' : ExtState := { s with snap := m } with hs'
  set sA := addToHistory s' a d ts with hsA
  have h0' : (0 : Int) ≤ s'.historyIndex := h0
  have hlt' : s'.historyIndex < (s'.history.length : Int) := hlt
  have hge2 : 2 ≤ sA.history.length := addToHistory_length_ge_two s' a d ts h0' hlt'
  have hidx : sA.historyIndex = (sA.history.length : Int) - 1 :=
    addToHistory_historyIndex s' a d ts
  have hpen : nth sA.history (sA.history.length - 2) = some e := by
    have hthis := addToHistory_nth_penult s' a d ts h0' hlt'
    rw [hthis]
    exact hcur
  have hlast : nth sA.history (sA.history.length - 1) = some ⟨a, d, ts, m⟩ :=
    addToHistory_nth_last s' a d ts
  have hg : 0 < sA.historyIndex := by rw [hidx]; omega
  have htoN : (sA.historyIndex - 1).toNat = sA.history.length - 2 := by rw [hidx]; omega
  have hu := undo_eq_restore sA e hg (by rw [htoN]; exact hpen)
  have hr := redo_eq_restore
      { sA with snap := e.state
                historyIndex := sA.historyIndex - 1
                notifs := ⟨"info", false, "Дію скасовано"⟩ :: sA.notifs }
      ⟨a, d, ts, m⟩
      (by show sA.historyIndex - 1 < (sA.history.length : Int) - 1
          rw [hidx]; omega)
      (by show nth sA.history (sA.historyIndex - 1 + 1).toNat = some ⟨a, d, ts, m⟩
          have h9 : (sA.historyIndex - 1 + 1).toNat = sA.history.length - 1 := by
            rw [hidx]; omega
          rw [h9]; exact hlast)
  refine ⟨by rw [hu]; exact hsync, ?_⟩
  rw [hu, hr]

/-- Witness for C1: in a state with two history entries in sync with
the live collections, a logged action followed by `undo()` restores the
pre-action snapshot, and `redo()` then restores the post-action one. -/
theorem undo_redo_round_trip_witness :
    2 ≤ c1State.history.length ∧
    nth c1State.history c1State.historyIndex.toNat = some entryB ∧
    entryB.state = c1State.snap ∧
    (undo (addToHistory { c1State with snap := ⟨[fA, fB], [], [], []⟩ } "add"
        HistData.noData 2)).snap = c1State.snap ∧
    (redo (undo (addToHistory { c1State with snap := ⟨[fA, fB], [], [], []⟩ } "add"
        HistData.noData 2))).snap = ⟨[fA, fB], [], [], []⟩ := by
  have h := undo_redo_round_trip c1State ⟨[fA, fB], [], [], []⟩ "add" HistData.noData 2 entryB
    (by decide) (by decide) (by decide) (by decide) (by decide)
  exact ⟨by decide, by decide, by decide, h.1, h.2⟩

theorem tail_append_of_ne_nil {α : Type} (A B : List α) (h : A ≠ []) :
    (A ++ B).tail = A.tail ++ B := by
  cases A with
  | nil => exact absurd rfl h
  | cons a A' => rfl

theorem runHistory_append_one (l : List HistInput) (x : HistInput) :
    runHistory (l ++ [x]) = histStep (runHistory l) x := by
  rw [runHistory, List.foldl_append]
  rfl

theorem runHistory_spec (inputs : List HistInput) :
    (runHistory inputs).history = (inputs.map mkEntry).drop (inputs.length - 50) ∧
    (runHistory inputs).historyIndex = ((min inputs.length 50 : Nat) : Int) - 1 := by
  induction inputs using List.reverseRecOn with
  | nil => exact ⟨rfl, by decide⟩
  | append_singleton l x ih =>
    obtain ⟨ih1, ih2⟩ := ih
    have hlen : (runHistory l).history.length = min l.length 50 := by
      rw [ih1]
      simp only [List.length_drop, List.length_map]
      omega
    have htr : ¬ (({ runHistory l with snap := x.snap } : ExtState).historyIndex
        < ((({ runHistory l with snap := x.snap } : ExtState).history.length : Int) - 1)) := by
      show ¬ ((runHistory l).historyIndex < ((runHistory l).history.length : Int) - 1)
      rw [ih2, hlen]
      omega
    rw [runHistory_append_one, histStep, addToHistory, if_neg htr]
    dsimp only
    rw [ih1]
    by_cases hn : 50 ≤ l.length
    · have hpos : 50 < (((l.map mkEntry).drop (l.length - 50))
          ++ [(⟨x.action, x.data, x.ts, x.snap⟩ : HistoryEntry)]).length := by
        simp only [List.length_append, List.length_drop, List.length_map,
          List.length_singleton]
        omega
      rw [if_pos hpos]
      constructor
      · rw [tail_append_of_ne_nil _ _ (by
            intro hnil
            have hc := congrArg List.length hnil
            simp only [List.length_drop, List.length_map, List.length_nil] at hc
            omega)]
        rw [tail_drop_succ, List.map_append, List.map_cons, List.map_nil]
        have heq : (l ++ [x]).length - 50 = l.length - 50 + 1 := by
          simp only [List.length_append, List.length_singleton]
          omega
        rw [heq]
        rw [drop_concat _ _ _ (by rw [List.length_map]; omega)]
        rfl
      · simp only [List.length_append, List.length_drop, List.length_map,
          List.length_singleton, List.length_cons, List.length_nil]
        omega
    · have hneg : ¬ 50 < (((l.map mkEntry).drop (l.length - 50))
          ++ [(⟨x.action, x.data, x.ts, x.snap⟩ : HistoryEntry)]).length := by
        simp only [List.length_append, List.length_drop, List.length_map,
          List.length_singleton]
        omega
      rw [if_neg hneg]
      constructor
      · rw [List.map_append, List.map_cons, List.map_nil]
        have hz1 : l.length - 50 = 0 := by omega
        have hz2 : (l ++ [x]).length - 50 = 0 := by
          simp only [List.length_append, List.length_singleton]
          omega
        rw [hz1, hz2, List.drop_zero, List.drop_zero]
        rfl
      · simp only [List.length_append, List.length_drop, List.length_map,
          List.length_singleton]
        omega

/-- Claim C2: over any sequence of more than 50 history-producing
actions from the pristine state, the log length never exceeds 50; once
the 51st entry is appended the oldest entries are evicted (the log is
the last 50 entries) and the cursor still points at the most recent
entry (`history.length - 1`, i.e. 49). -/
theorem history_capacity (inputs : List HistInput) (h : 50 < inputs.length) :
    (runHistory inputs).history.length = 50 ∧
    (runHistory inputs).historyIndex = 49 ∧
    (runHistory inputs).historyIndex = ((runHistory inputs).history.length : Int) - 1 ∧
    (runHistory inputs).history = (inputs.map mkEntry).drop (inputs.length - 50) ∧
    (∀ n : Nat, (runHistory (inputs.take n)).history.length ≤ 50) := by
  obtain ⟨h1, h2⟩ := runHistory_spec inputs
  have hlen50 : (runHistory inputs).history.length = 50 := by
    rw [h1]
    simp only [List.length_drop, List.length_map]
    omega
  refine ⟨hlen50, ?_, ?_, h1, ?_⟩
  · rw [h2]
    have hm : min inputs.length 50 = 50 := by omega
    rw [hm]
    decide
  · rw [h2, hlen50]
    omega
  · intro n
    obtain ⟨t1, _⟩ := runHistory_spec (inputs.take n)
    rw [t1]
    simp only [List.length_drop, List.length_map]
    omega

/-- Witness for C2: after 51 history-producing actions the log holds
exactly 50 entries and the cursor sits at index 49. -/
theorem history_capacity_witness :
    50 < inputs51.length ∧
    (runHistory inputs51).history.length = 50 ∧
    (runHistory inputs51).historyIndex = 49 := by
  exact ⟨by decide, (history_capacity inputs51 (by decide)).1,
    (history_capacity inputs51 (by decide)).2.1⟩

/-- Claim C10: `undo()` and `redo()` never modify the history log
itself — its length and every stored entry are unchanged; only
`historyIndex` moves, by exactly one position and only when a
neighbouring entry exists, and the four collections are overwritten
from the target snapshot. -/
theorem undo_redo_frame (s : ExtState)
    (hlo : -1 ≤ s.historyIndex)
    (hhi : s.historyIndex < (s.history.length : Int)) :
    (undo s).history = s.history ∧
    (redo s).history = s.history ∧
    (0 < s.historyIndex →
       (undo s).historyIndex = s.historyIndex - 1 ∧
       ∃ e, nth s.history (s.historyIndex - 1).toNat = some e ∧ (undo s).snap = e.state) ∧
    (¬ 0 < s.historyIndex →
       (undo s).historyIndex = s.historyIndex ∧ (undo s).snap = s.snap) ∧
    (s.historyIndex < (s.history.length : Int) - 1 →
       (redo s).historyIndex = s.historyIndex + 1 ∧
       ∃ e, nth s.history (s.historyIndex + 1).toNat = some e ∧ (redo s).snap = e.state) ∧
    (¬ s.historyIndex < (s.history.length : Int) - 1 →
       (redo s).historyIndex = s.historyIndex ∧ (redo s).snap = s.snap) := by
  refine ⟨?_, ?_, ?_, ?_, ?_, ?_⟩
  · by_cases hg : 0 < s.historyIndex
    · obtain ⟨e, he⟩ := nth_lt_length s.history (s.historyIndex - 1).toNat (by omega)
      rw [undo_eq_restore s e hg he]
    · rw [undo_warn s hg]
      rfl
  · by_cases hg : s.historyIndex < (s.history.length : Int) - 1
    · obtain ⟨e, he⟩ := nth_lt_length s.history (s.historyIndex + 1).toNat (by omega)
      rw [redo_eq_restore s e hg he]
    · rw [redo_warn s hg]
      rfl
  · intro hg
    obtain ⟨e, he⟩ := nth_lt_length s.history (s.historyIndex - 1).toNat (by omega)
    rw [undo_eq_restore s e hg he]
    exact ⟨rfl, e, he, rfl⟩
  · intro hg
    rw [undo_warn s hg]
    exact ⟨rfl, rfl⟩
  · intro hg
    obtain ⟨e, he⟩ := nth_lt_length s.history (s.historyIndex + 1).toNat (by omega)
    rw [redo_eq_restore s e hg he]
    exact ⟨rfl, e, he, rfl⟩
  · intro hg
    rw [redo_warn s hg]
    exact ⟨rfl, rfl⟩

/-- Witness for C10: on a two-entry state with the cursor at 1, `undo`
leaves the log unchanged and moves the cursor to 0. -/
theorem undo_redo_frame_witness :
    -1 ≤ c1State.historyIndex ∧ c1State.historyIndex < (c1State.history.length : Int) ∧
    (undo c1State).history = c1State.history ∧ (undo c1State).historyIndex = 0 := by
  have h := undo_redo_frame c1State (by decide) (by decide)
  refine ⟨by decide, by decide, h.1, ?_⟩
  have h2 := (h.2.2.1 (by decide)).1
  rw [h2]
  decide

theorem addToHistory_simple (s : ExtState) (a : String) (d : HistData) (ts : Nat)
    (hidx : s.historyIndex = (s.history.length : Int) - 1)
    (hlen : s.history.length < 50) :
    addToHistory s a d ts
      = { s with history := s.history ++ [⟨a, d, ts, s.snap⟩]
                 historyIndex := (s.history.length : Int) } := by
  have h1 : ¬ (s.historyIndex < (s.history.length : Int) - 1) := by
    rw [hidx]
    omega
  have h2 : ¬ (50 < (s.history ++ [(⟨a, d, ts, s.snap⟩ : HistoryEntry)]).length) := by
    simp only [List.length_append, List.length_singleton]
    omega
  rw [addToHistory, if_neg h1, if_neg h2]
  have hi : ((s.history ++ [(⟨a, d, ts, s.snap⟩ : HistoryEntry)]).length : Int) - 1
      = (s.history.length : Int) := by
    simp only [List.length_append, List.length_singleton]
    push_cast
    omega
  rw [hi]

theorem bulkAddConfirm_snap (s : ExtState) (chosen : List AvailField) (ts : Nat) :
    (bulkAddConfirm s chosen ts).snap
      = { s.snap with selectedFields := bulkPush chosen 0 s.snap.selectedFields } := by
  show (addToHistory { s with snap := { s.snap with
      selectedFields := bulkPush chosen 0 s.snap.selectedFields } }
      "bulk_add_fields" (HistData.count chosen.length) ts).snap = _
  rw [addToHistory_snap]

/-- Counterexample for C4: `duplicateField` keeps the original `name`
(only the label gets a suffix), so duplicating an existing field makes
its name appear twice in `selectedFields`. -/
theorem duplicateField_duplicate_name_cex :
    (c4State.snap.selectedFields.map FieldSpec.name).Nodup ∧
    ((duplicateField c4State "name" 0).snap.selectedFields.map FieldSpec.name)
      = ["name", "name"] ∧
    ¬ ((duplicateField c4State "name" 0).snap.selectedFields.map FieldSpec.name).Nodup := by
  exact ⟨by decide, by decide, by decide⟩

/-- Claim C4 (amended): name uniqueness in `selectedFields` is preserved
by `addField` (which appends only when the name is absent and otherwise
warns leaving the list unchanged) and by the bulk-add confirmation when
the chosen fields have distinct names not already selected;
`duplicateField`, however, appends a clone carrying the same name (see
the counterexample). -/
theorem unique_names_amended (s : ExtState) (f : AvailField) (chosen : List AvailField)
    (ts : Nat)
    (hs : (s.snap.selectedFields.map FieldSpec.name).Nodup)
    (hch : (chosen.map AvailField.name).Nodup)
    (hdisj : ∀ c ∈ chosen, ∀ g ∈ s.snap.selectedFields, c.name ≠ g.name) :
    ((addField s f).snap.selectedFields.map FieldSpec.name).Nodup ∧
    ((bulkAddConfirm s chosen ts).snap.selectedFields.map FieldSpec.name).Nodup := by
  constructor
  · cases hf : s.snap.selectedFields.find? (fun g => g.name == f.name) with
    | some g =>
      simp only [addField, hf]
      exact hs
    | none =>
      have hnot := List.find?_eq_none.mp hf
      simp only [addField, hf]
      show ((s.snap.selectedFields
          ++ [(⟨f.name, f.string, f.type, true, s.snap.selectedFields.length + 1,
               guessFormatType f.type, "none"⟩ : FieldSpec)]).map FieldSpec.name).Nodup
      rw [List.map_append]
      refine List.Nodup.append hs (List.nodup_singleton _) ?_
      intro x hx hx'
      simp only [List.map_cons, List.map_nil, List.mem_singleton] at hx'
      subst hx'
      obtain ⟨g, hg, hgname⟩ := List.mem_map.mp hx
      exact hnot g hg (by simp [hgname])
  · have h2 : (bulkAddConfirm s chosen ts).snap.selectedFields
        = bulkPush chosen 0 s.snap.selectedFields := by
      rw [bulkAddConfirm_snap]
    rw [h2, bulkPush_eq, List.map_append, bulkShape_names]
    refine List.Nodup.append hs hch ?_
    intro x hx hx'
    obtain ⟨g, hg, hgname⟩ := List.mem_map.mp hx
    obtain ⟨c, hc, hcname⟩ := List.mem_map.mp hx'
    subst hgname
    exact hdisj c hc g hg hcname

/-- Witness for C4 (amended): adding a fresh field through `addField`
and one through the bulk-add confirmation keeps the names unique. -/
theorem unique_names_amended_witness :
    (c4State.snap.selectedFields.map FieldSpec.name).Nodup ∧
    (([afEmail].map AvailField.name)).Nodup ∧
    ((addField c4State afEmail).snap.selectedFields.map FieldSpec.name).Nodup ∧
    ((bulkAddConfirm c4State [afEmail] 3).snap.selectedFields.map FieldSpec.name).Nodup := by
  have h := unique_names_amended c4State afEmail [afEmail] 3 (by decide) (by decide)
    (by decide)
  exact ⟨by decide, by decide, h.1, h.2⟩

/-- Counterexample for C8: confirming the bulk-add dialog with two
chosen fields on an empty selection assigns sequences 1 and 3 — not the
contiguous 1 and 2 the claim states — because the loop reads the
already-grown array length when computing each sequence. -/
theorem bulk_sequence_cex :
    ((bulkAddConfirm initState [afName, afEmail] 0).snap.selectedFields.map
        FieldSpec.sequence) = [1, 3] ∧
    ([1, 3] : List Nat) ≠ [1, 2] := by
  exact ⟨by decide, by decide⟩

/-- Claim C8 (amended): confirming the bulk-add dialog with `k` chosen
fields appends exactly `k` FieldSpecs, each with `format_type` derived
via `guessFormatType`, aggregation "none" and visibility on, where the
`i`-th appended field (0-based) receives sequence `L + 2·i + 1` for the
prior length `L` (the loop reads the already-grown length); exactly one
history entry recording the count is logged and the cursor moves to it
(stated for a cursor at the newest entry and a log below capacity, where
no truncation or eviction interferes). -/
theorem bulkAddConfirm_amended (s : ExtState) (chosen : List AvailField) (ts : Nat)
    (hidx : s.historyIndex = (s.history.length : Int) - 1)
    (hlen : s.history.length < 50) :
    (bulkAddConfirm s chosen ts).snap.selectedFields.length
        = s.snap.selectedFields.length + chosen.length ∧
    (∀ k : Nat, k < s.snap.selectedFields.length →
       nth (bulkAddConfirm s chosen ts).snap.selectedFields k
         = nth s.snap.selectedFields k) ∧
    (∀ k : Nat, k < chosen.length →
       nth (bulkAddConfirm s chosen ts).snap.selectedFields
           (s.snap.selectedFields.length + k)
         = some ⟨((nth chosen k).getD dfltAvail).name,
                 ((nth chosen k).getD dfltAvail).string,
                 ((nth chosen k).getD dfltAvail).type,
                 true,
                 s.snap.selectedFields.length + 2 * k + 1,
                 guessFormatType ((nth chosen k).getD dfltAvail).type,
                 "none"⟩) ∧
    (bulkAddConfirm s chosen ts).snap.filters = s.snap.filters ∧
    (bulkAddConfirm s chosen ts).snap.groups = s.snap.groups ∧
    (bulkAddConfirm s chosen ts).snap.sorts = s.snap.sorts ∧
    (bulkAddConfirm s chosen ts).history
      = s.history ++ [⟨"bulk_add_fields", HistData.count chosen.length, ts,
          (bulkAddConfirm s chosen ts).snap⟩] ∧
    (bulkAddConfirm s chosen ts).historyIndex = (s.history.length : Int) := by
  have hsnap := bulkAddConfirm_snap s chosen ts
  have hfields : (bulkAddConfirm s chosen ts).snap.selectedFields
      = s.snap.selectedFields ++ bulkShape s.snap.selectedFields.length 0 chosen := by
    rw [hsnap]
    exact bulkPush_eq chosen 0 s.snap.selectedFields
  refine ⟨?_, ?_, ?_, ?_, ?_, ?_, ?_, ?_⟩
  · rw [hfields]
    rw [List.length_append, length_bulkShape]
  · intro k hk
    rw [hfields]
    exact nth_append_left _ _ k hk
  · intro k hk
    rw [hfields, nth_append_right, nth_bulkShape]
    obtain ⟨c, hc⟩ := nth_lt_length chosen k hk
    rw [hc]
    simp only [Option.map_some', Option.getD_some]
    have hz : s.snap.selectedFields.length + 0 + 2 * k + 1
        = s.snap.selectedFields.length + 2 * k + 1 := by omega
    rw [hz]
  · rw [hsnap]
  · rw [hsnap]
  · rw [hsnap]
  · show (addToHistory { s with snap := { s.snap with
        selectedFields := bulkPush chosen 0 s.snap.selectedFields } }
        "bulk_add_fields" (HistData.count chosen.length) ts).history = _
    rw [addToHistory_simple { s with snap := { s.snap with
          selectedFields := bulkPush chosen 0 s.snap.selectedFields } }
        "bulk_add_fields" (HistData.count chosen.length) ts (by exact hidx) (by exact hlen)]
    rw [hsnap]
  · show (addToHistory { s with snap := { s.snap with
        selectedFields := bulkPush chosen 0 s.snap.selectedFields } }
        "bulk_add_fields" (HistData.count chosen.length) ts).historyIndex = _
    rw [addToHistory_simple { s with snap := { s.snap with
          selectedFields := bulkPush chosen 0 s.snap.selectedFields } }
        "bulk_add_fields" (HistData.count chosen.length) ts (by exact hidx) (by exact hlen)]

/-- Witness for C8 (amended): two fields bulk-added to an empty
selection get sequences 1 and 3 and one history entry records count 2. -/
theorem bulkAddConfirm_amended_witness :
    initState.historyIndex = (initState.history.length : Int) - 1 ∧
    initState.history.length < 50 ∧
    (bulkAddConfirm initState [afName, afEmail] 0).snap.selectedFields.length = 2 ∧
    nth (bulkAddConfirm initState [afName, afEmail] 0).snap.selectedFields 1
      = some ⟨"email", "Email", "char", true, 3, "text", "none"⟩ ∧
    (bulkAddConfirm initState [afName, afEmail] 0).history
      = [⟨"bulk_add_fields", HistData.count 2, 0,
          (bulkAddConfirm initState [afName, afEmail] 0).snap⟩] := by
  have h := bulkAddConfirm_amended initState [afName, afEmail] 0 (by decide) (by decide)
  refine ⟨by decide, by decide, h.1, ?_, h.2.2.2.2.2.2.1⟩
  have h3 := h.2.2.1 1 (by decide)
  simpa using h3

/-- Counterexample for C9: when the model id resolves but the field
fetch fails, `selectedModel` has already been overwritten with the new
model before the RPC was awaited, so the previously-good
`selectedModel` is not preserved. -/
theorem onModelChange_failure_cex :
    c9State.selectedModel = some mOld ∧
    (onModelChange c9State 2 (FieldsRpc.fail "boom")).selectedModel = some mNew ∧
    (onModelChange c9State 2 (FieldsRpc.fail "boom")).selectedModel
      ≠ c9State.selectedModel := by
  exact ⟨by decide, by decide, by decide⟩

/-- Claim C9 (amended): when `onModelChange` is called with a truthy
model id and the field-list fetch fails, the error is caught and
surfaced as a sticky danger notification, the loading flag is cleared,
and `availableFields`, the four report-definition collections,
`reportData`, `reportCount` and the history are unchanged; however
`selectedModel` is assigned the resolved model before the fetch, so on
failure it holds the new model whenever the id resolved (it is unchanged
only when the model id is not found). -/
theorem onModelChange_failure_amended (s : ExtState) (modelId : Nat) (err : String)
    (rpc : FieldsRpc)
    (hid : modelId ≠ 0)
    (hfail : rpc = FieldsRpc.fail err ∨ rpc = FieldsRpc.reject err) :
    (onModelChange s modelId rpc).loading = false ∧
    (onModelChange s modelId rpc).availableFields = s.availableFields ∧
    (onModelChange s modelId rpc).snap = s.snap ∧
    (onModelChange s modelId rpc).reportData = s.reportData ∧
    (onModelChange s modelId rpc).reportCount = s.reportCount ∧
    (onModelChange s modelId rpc).history = s.history ∧
    (onModelChange s modelId rpc).historyIndex = s.historyIndex ∧
    (onModelChange s modelId rpc).errors = [] ∧
    (∃ msg, (onModelChange s modelId rpc).notifs = ⟨"danger", true, msg⟩ :: s.notifs) ∧
    (onModelChange s modelId rpc).selectedModel
      = ((s.availableModels.find? (fun mm => mm.id == modelId)).elim s.selectedModel
          some) := by
  rcases hfail with rfl | rfl <;>
  · rw [onModelChange, if_neg hid]
    dsimp only
    rcases hfind : s.availableModels.find? (fun mm => mm.id == modelId) with _ | mdl <;>
      simp only [hfind, Option.elim] <;>
      exact ⟨by trivial, by trivial, by trivial, by trivial, by trivial, by trivial,
        by trivial, by trivial, ⟨_, rfl⟩, by trivial⟩

/-- Witness for C9 (amended): a failing fetch on `c9State` clears the
loading flag and leaves `availableFields` and the report definition
untouched. -/
theorem onModelChange_failure_amended_witness :
    (2 : Nat) ≠ 0 ∧
    (onModelChange c9State 2 (FieldsRpc.fail "boom")).loading = false ∧
    (onModelChange c9State 2 (FieldsRpc.fail "boom")).availableFields
      = c9State.availableFields ∧
    (onModelChange c9State 2 (FieldsRpc.fail "boom")).snap = c9State.snap := by
  have h := onModelChange_failure_amended c9State 2 "boom" (FieldsRpc.fail "boom")
    (by decide) (Or.inl rfl)
  exact ⟨by decide, h.1, h.2.1, h.2.2.1⟩

-- === helper lemmas for the reference model (claim C3) ===

theorem addToHistoryRef_heap (s : RefState) (a : String) :
    (addToHistoryRef s a).hFields = updFn s.hFields s.fresh (s.hFields s.live.fieldsId) ∧
    (addToHistoryRef s a).hFilters
      = updFn s.hFilters (s.fresh + 1) (s.hFilters s.live.filtersId) ∧
    (addToHistoryRef s a).hGroups
      = updFn s.hGroups (s.fresh + 2) (s.hGroups s.live.groupsId) ∧
    (addToHistoryRef s a).hSorts
      = updFn s.hSorts (s.fresh + 3) (s.hSorts s.live.sortsId) := by
  rw [addToHistoryRef]
  split <;> split <;> exact ⟨rfl, rfl, rfl, rfl⟩

theorem getLast_concat_tail {α : Type} (X : List α) (x : α) (h : X ≠ []) :
    ((X ++ [x]).tail).getLast? = some x := by
  cases X with
  | nil => exact absurd rfl h
  | cons y X' =>
    show (X' ++ [x]).getLast? = some x
    exact List.getLast?_concat _

theorem addToHistoryRef_getLast (s : RefState) (a : String) :
    (addToHistoryRef s a).history.getLast?
      = some ⟨a, ⟨s.fresh, s.fresh + 1, s.fresh + 2, s.fresh + 3⟩⟩ := by
  rw [addToHistoryRef]
  split <;> split
  · next h => exact getLast_concat_tail _ _ (by intro hX; rw [hX] at h; simp at h)
  · next h => exact List.getLast?_concat _
  · next h => exact getLast_concat_tail _ _ (by intro hX; rw [hX] at h; simp at h)
  · next h => exact List.getLast?_concat _

/-- Counterexample for C3: `restoreState` installs the stored
snapshot's array references into the live state, so after `undo()` a
push on the live `selectedFields` mutates the stored snapshot of the
restored entry (heap cell 4 of the first entry changes from `[]` to
`[fB]`). -/
theorem restored_snapshot_mutated_cex :
    refRun4.history = [⟨"a", ⟨4, 5, 6, 7⟩⟩, ⟨"b", ⟨8, 9, 10, 11⟩⟩] ∧
    refRun4.hFields 4 = [] ∧
    refRun5.history = refRun4.history ∧
    refRun5.hFields 4 = [fB] ∧
    refRun5.hFields 4 ≠ refRun4.hFields 4 := by
  exact ⟨by decide, by decide, by decide, by decide, by decide⟩

/-- Claim C3 (amended): a stored history snapshot is unchanged by
mutations of live collections whose cells it does not alias and by
further `addToHistory` calls (whose copies go to fresh cells); the
snapshot taken by `addToHistory` is a deep copy living in fresh cells,
never aliased to the live collections at creation.  Aliasing — and with
it mutation of a stored snapshot, see the counterexample — arises only
after `restoreState` installs a snapshot's references into the live
state. -/
theorem snapshot_independence_amended (s : RefState) (e : RefHistEntry) (a : String)
    (f : FieldSpec) (fl : FilterSpec) (g : GroupSpec) (so : SortSpec)
    (_he : e ∈ s.history)
    (hf : e.ids.fieldsId ≠ s.live.fieldsId)
    (hfl : e.ids.filtersId ≠ s.live.filtersId)
    (hg : e.ids.groupsId ≠ s.live.groupsId)
    (hso : e.ids.sortsId ≠ s.live.sortsId)
    (hbf : e.ids.fieldsId < s.fresh) (hbfl : e.ids.filtersId < s.fresh)
    (hbg : e.ids.groupsId < s.fresh) (hbs : e.ids.sortsId < s.fresh)
    (hlf : s.live.fieldsId < s.fresh) (hlfl : s.live.filtersId < s.fresh)
    (hlg : s.live.groupsId < s.fresh) (hls : s.live.sortsId < s.fresh) :
    (pushFieldRef s f).hFields e.ids.fieldsId = s.hFields e.ids.fieldsId ∧
    (pushFilterRef s fl).hFilters e.ids.filtersId = s.hFilters e.ids.filtersId ∧
    (pushGroupRef s g).hGroups e.ids.groupsId = s.hGroups e.ids.groupsId ∧
    (pushSortRef s so).hSorts e.ids.sortsId = s.hSorts e.ids.sortsId ∧
    (addToHistoryRef s a).hFields e.ids.fieldsId = s.hFields e.ids.fieldsId ∧
    (addToHistoryRef s a).hFilters e.ids.filtersId = s.hFilters e.ids.filtersId ∧
    (addToHistoryRef s a).hGroups e.ids.groupsId = s.hGroups e.ids.groupsId ∧
    (addToHistoryRef s a).hSorts e.ids.sortsId = s.hSorts e.ids.sortsId ∧
    (∃ e', (addToHistoryRef s a).history.getLast? = some e' ∧
       e'.ids.fieldsId ≠ s.live.fieldsId ∧ e'.ids.filtersId ≠ s.live.filtersId ∧
       e'.ids.groupsId ≠ s.live.groupsId ∧ e'.ids.sortsId ≠ s.live.sortsId ∧
       (addToHistoryRef s a).hFields e'.ids.fieldsId = s.hFields s.live.fieldsId ∧
       (addToHistoryRef s a).hFilters e'.ids.filtersId = s.hFilters s.live.filtersId ∧
       (addToHistoryRef s a).hGroups e'.ids.groupsId = s.hGroups s.live.groupsId ∧
       (addToHistoryRef s a).hSorts e'.ids.sortsId = s.hSorts s.live.sortsId) := by
  obtain ⟨hh1, hh2, hh3, hh4⟩ := addToHistoryRef_heap s a
  refine ⟨?_, ?_, ?_, ?_, ?_, ?_, ?_, ?_, ?_⟩
  · show updFn s.hFields s.live.fieldsId _ e.ids.fieldsId = _
    rw [updFn, if_neg hf]
  · show updFn s.hFilters s.live.filtersId _ e.ids.filtersId = _
    rw [updFn, if_neg hfl]
  · show updFn s.hGroups s.live.groupsId _ e.ids.groupsId = _
    rw [updFn, if_neg hg]
  · show updFn s.hSorts s.live.sortsId _ e.ids.sortsId = _
    rw [updFn, if_neg hso]
  · rw [hh1, updFn, if_neg (by omega)]
  · rw [hh2, updFn, if_neg (by omega)]
  · rw [hh3, updFn, if_neg (by omega)]
  · rw [hh4, updFn, if_neg (by omega)]
  · refine ⟨⟨a, ⟨s.fresh, s.fresh + 1, s.fresh + 2, s.fresh + 3⟩⟩,
      addToHistoryRef_getLast s a, ?_, ?_, ?_, ?_, ?_, ?_, ?_, ?_⟩
    · show s.fresh ≠ s.live.fieldsId
      omega
    · show s.fresh + 1 ≠ s.live.filtersId
      omega
    · show s.fresh + 2 ≠ s.live.groupsId
      omega
    · show s.fresh + 3 ≠ s.live.sortsId
      omega
    · rw [hh1]
      show updFn s.hFields s.fresh _ s.fresh = _
      rw [updFn, if_pos rfl]
    · rw [hh2]
      show updFn s.hFilters (s.fresh + 1) _ (s.fresh + 1) = _
      rw [updFn, if_pos rfl]
    · rw [hh3]
      show updFn s.hGroups (s.fresh + 2) _ (s.fresh + 2) = _
      rw [updFn, if_pos rfl]
    · rw [hh4]
      show updFn s.hSorts (s.fresh + 3) _ (s.fresh + 3) = _
      rw [updFn, if_pos rfl]

/-- Witness for C3 (amended): before any restore, the stored first
snapshot of the two-entry reference run is unaffected by a push on the
live `selectedFields`. -/
theorem snapshot_independence_amended_witness :
    (⟨"a", ⟨4, 5, 6, 7⟩⟩ : RefHistEntry) ∈ refRun3.history ∧
    (4 : Nat) ≠ refRun3.live.fieldsId ∧
    (pushFieldRef refRun3 fB).hFields 4 = refRun3.hFields 4 := by
  have h := snapshot_independence_amended refRun3 ⟨"a", ⟨4, 5, 6, 7⟩⟩ "c" fB
      ⟨0, "", "char", "=", "", true⟩ ⟨0, "", true⟩ ⟨0, "", "asc"⟩
      (by decide) (by decide) (by decide) (by decide) (by decide)
      (by decide) (by decide) (by decide) (by decide)
      (by decide) (by decide) (by decide) (by decide)
  exact ⟨by decide, by decide, h.1⟩

end UR
